import Mathlib

/-!
# Verification of the hangman-server game controller

Shallow embedding of `src/src/game/game.controller.ts` (the orchestrator) of
silibdev/hangman-server, together with the Room entity, room registry
(GameService) and broadcast gateway it calls.  The controller source is in the
repository; the Room entity, service and guards are external collaborators whose
behaviour is modelled from the specification (each such definition is marked
`Modelled from the spec:`).

Broadcasts are embedded as an event trace: every controller operation returns
the updated state together with the ordered list of gateway events it emitted.
Thrown exceptions are embedded with `Except`: an operation that throws returns
`Except.error` and, being pure, leaves every piece of state untouched.
-/

/-- A single position of the secret word: the letter and whether it has been
revealed by a guess. -/
structure LetterState where
  letter : Char
  guessed : Bool
deriving DecidableEq, Repr

/-- A player of a room: id (the user id), display name and accumulated points. -/
structure Player where
  id : String
  name : String
  points : Nat
deriving DecidableEq, Repr

/-- Modelled from the spec: `ReturningPlayerRecord` - the process-wide history
entry saved when a player leaves with `save = true`: the room they left, the
round at that moment, whether they were the master, and their last player info
(the controller reads `returningPlayer.player.points` and
`returningPlayer.wasMaster`, `returningPlayer.round`, `returningPlayer.roomId`).
The same shape is what `GameService.removePlayer` returns as
`playerLeaving`. -/
structure ReturningPlayerRecord where
  roomId : String
  round : Nat
  wasMaster : Bool
  player : Player
deriving DecidableEq, Repr

/-- Modelled from the spec: the Room entity state - id, round counter, players
in join order (join order = turn order), master id, current turn holder id, the
current word as per-letter guessed flags (empty while awaiting a word), the set
of letters already tried, the player credited with the last successful guess
(who becomes `FinishState.player`), and whether the finish of the current word
has already been reported (`checkGameFinished` produces a `FinishState` exactly
once per completed word). -/
structure Room where
  id : String
  round : Nat
  players : List Player
  masterId : String
  currentTurn : String
  currentWord : List LetterState
  guessedLetters : List Char
  credited : String
  finished : Bool
deriving DecidableEq, Repr

/-- Result of a letter guess: the (normalized) letter, whether it hit, the
word positions it revealed, and the acting player's id. -/
structure GuessInfo where
  letter : Char
  hit : Bool
  positions : List Nat
  playerId : String
deriving DecidableEq, Repr

/-- Modelled from the spec: `FinishState` carries the player credited with
completing the word (with their updated points), broadcast by the finish
sequence. -/
structure FinishState where
  player : Player
deriving DecidableEq, Repr

/-- Errors the request pipeline can surface.  `duplicateGuess` is the
`BadRequestException` thrown by the controller for an already-guessed letter;
`notTurnHolder` is the rejection of `IsPlayerInTurnGuard`; `invalidWord` and
`invalidState` are the Room entity rejections of `setWord` (empty or
non-alphabetic word, and a word set outside the `AwaitingWord` state);
`playerNotFound` models removing a player that is not in the room. -/
inductive GameError where
  | duplicateGuess
  | notTurnHolder
  | invalidWord
  | invalidState
  | playerNotFound
deriving DecidableEq, Repr

/-- The gateway broadcast events emitted by the controller, in emission order. -/
inductive Event where
  | playerJoined (p : Player)
  | playerLeft (r : ReturningPlayerRecord)
  | masterChanged (playerId : String)
  | newTurn (playerId : String)
  | wordSet (w : List LetterState)
  | newGuess (g : GuessInfo)
  | finishGame (f : FinishState)
  | updatePlayer (p : Player)
  | newWordGuess (w : String)
deriving DecidableEq, Repr

/-- Decidable equality of request results, so concrete request runs can be
checked by `decide`. -/
instance {ε α : Type} [DecidableEq ε] [DecidableEq α] : DecidableEq (Except ε α) :=
  fun a b =>
    match a, b with
    | .ok x, .ok y =>
      if h : x = y then .isTrue (by rw [h])
      else .isFalse (by intro hc; cases hc; exact h rfl)
    | .error x, .error y =>
      if h : x = y then .isTrue (by rw [h])
      else .isFalse (by intro hc; cases hc; exact h rfl)
    | .ok _, .error _ => .isFalse (by intro hc; cases hc)
    | .error _, .ok _ => .isFalse (by intro hc; cases hc)

/-- The process-wide returning-player history, keyed by user id. -/
abbrev RPMap := List (String × ReturningPlayerRecord)

/-- Modelled from the spec: `getReturningPlayer(userId)` returns the last saved
record for that user id, or none; it does not mutate the history. -/
def getReturningPlayer (m : RPMap) (userId : String) : Option ReturningPlayerRecord :=
  (m.find? (fun e => e.1 == userId)).map (fun e => e.2)

/-- Modelled from the spec: `checkGuessIsPresent(letter)` - true when the
letter, lower-case normalized, is already in `guessedLetters`. -/
def Room.checkGuessIsPresent (room : Room) (char : Char) : Bool :=
  room.guessedLetters.contains char.toLower

/-- Modelled from the spec: `addGuess(letter)` - marks every matching position
guessed, adds the normalized letter to `guessedLetters`, awards the acting
player (the turn holder) one point per newly revealed occurrence, records the
acting player as credited when the guess hit, and returns the `GuessInfo`. -/
def Room.addGuess (room : Room) (char : Char) : Room × GuessInfo :=
  let l := char.toLower
  let positions :=
    (room.currentWord.enum.filter (fun p => p.2.letter == l && !p.2.guessed)).map
      (fun p => p.1)
  let hit := !positions.isEmpty
  let room' : Room :=
    { room with
      currentWord :=
        room.currentWord.map
          (fun ls => if ls.letter == l then { ls with guessed := true } else ls),
      players :=
        room.players.map
          (fun p =>
            if p.id == room.currentTurn then
              { p with points := p.points + positions.length }
            else p),
      guessedLetters := room.guessedLetters ++ [l],
      credited := if hit then room.currentTurn else room.credited }
  (room', ⟨l, hit, positions, room.currentTurn⟩)

/-- Modelled from the spec: `setWord(word)` - valid only in the `AwaitingWord`
state (no current word) with a non-empty alphabetic word; stores the word,
lower-case normalized, as per-letter guessed = false and resets the guessed
letters and the finish flag for the new word.  The master-or-not identity of
the caller is not visible to the entity (the method receives only the word);
caller checks are the guards' job. -/
def Room.setWord (room : Room) (word : String) : Except GameError Room :=
  if !room.currentWord.isEmpty then
    .error .invalidState
  else if word.isEmpty || !word.data.all (fun c => c.isAlpha) then
    .error .invalidWord
  else
    .ok { room with
      currentWord := word.data.map (fun c => ⟨c.toLower, false⟩),
      guessedLetters := [],
      finished := false }

/-- Modelled from the spec: `updateNextTurn()` - advances `currentTurn` to the
next eligible guesser in round-robin join order, skipping the master, wrapping
after the last player, and returns the new holder's id.  The scan starts right
after the current holder's position (at the head when the holder is not in the
list, e.g. because they just left).  With no eligible guesser the behaviour is
undefined upstream (the spec requires the caller to guarantee at least one
non-master player); the model then leaves the turn unchanged. -/
def Room.updateNextTurn (room : Room) : Room × String :=
  let start :=
    match room.players.findIdx? (fun p => p.id == room.currentTurn) with
    | some i => i + 1
    | none => 0
  match (room.players.rotate start).find? (fun p => p.id != room.masterId) with
  | some p => ({ room with currentTurn := p.id }, p.id)
  | none => (room, room.currentTurn)

/-- Modelled from the spec: `checkWordGuess(userId, word)` - compares the
normalized submission with the secret word; on success marks every letter
guessed (equivalent to completing the word) and credits the guesser. -/
def Room.checkWordGuess (room : Room) (userId : String) (word : String) : Room :=
  if word.data.map Char.toLower == room.currentWord.map (fun l => l.letter) then
    { room with
      currentWord := room.currentWord.map (fun l => { l with guessed := true }),
      credited := userId }
  else room

/-- Whether every letter of a non-empty current word is revealed. -/
def Room.wordComplete (room : Room) : Bool :=
  !room.currentWord.isEmpty && room.currentWord.all (fun l => l.guessed)

/-- Modelled from the spec: `GameService.checkGameFinished(roomId)` - the only
producer of a `FinishState`, exactly once per completed word: when the word is
fully revealed and the finish was not reported yet, it marks it reported and
returns the credited player (with current points); any later query before the
next `setWord` returns none. -/
def GameService.checkGameFinished (room : Room) : Room × Option FinishState :=
  if room.wordComplete && !room.finished then
    ({ room with finished := true },
      some ⟨(room.players.find? (fun p => p.id == room.credited)).getD
        ⟨room.credited, "", 0⟩⟩)
  else (room, none)

/-- Modelled from the spec: `isPlayerInTurn(roomId, playerId)` - whether the
player currently holds the turn. -/
def GameService.isPlayerInTurn (room : Room) (playerId : String) : Bool :=
  room.currentTurn == playerId

/-- Modelled from the spec: `addPlayer(roomId, userId, name, initialPoints)` -
appends a new player at the end of the turn order and returns it.  Point
carry-over is the caller's responsibility. -/
def GameService.addPlayer (room : Room) (userId : String) (name : String)
    (points : Nat) : Room × Player :=
  let player : Player := ⟨userId, name, points⟩
  ({ room with players := room.players ++ [player] }, player)

/-- Modelled from the spec: `updateMaster(roomId, playerId)` reassigns the
room's master id. -/
def GameService.updateMaster (room : Room) (playerId : String) : Room :=
  { room with masterId := playerId }

/-- Modelled from the spec: `removePlayer(roomId, playerId, {save})` - removes
the player from the turn order; when `save` is true it records a
`ReturningPlayerRecord` snapshot (points, was-master, round) under the player's
user id; it always returns the removed player's last known info so the caller
can re-broadcast.  Removing an absent player fails. -/
def GameService.removePlayer (room : Room) (rpmap : RPMap) (playerId : String)
    (save : Bool) : Except GameError (Room × RPMap × ReturningPlayerRecord) :=
  match room.players.find? (fun p => p.id == playerId) with
  | none => .error .playerNotFound
  | some p =>
    let record : ReturningPlayerRecord :=
      ⟨room.id, room.round, room.masterId == playerId, p⟩
    let room' := { room with players := room.players.filter (fun q => q.id != playerId) }
    let rpmap' := if save then (playerId, record) :: rpmap else rpmap
    .ok (room', rpmap', record)

/-- The synthetic reveal loop of the controller's private `checkGameFinished`:
`room.currentWord.map(l => room.addGuess(l.letter)).forEach(gi => gateway.newGuess(gi))`
applied to a list of letters - each letter is re-guessed and its `GuessInfo`
broadcast, in list order. -/
def Room.revealAll (room : Room) (letters : List Char) : Room × List Event :=
  match letters with
  | [] => (room, [])
  | l :: rest =>
    let rg := room.addGuess l
    let out := rg.1.revealAll rest
    (out.1, Event.newGuess rg.2 :: out.2)

/-- The controller's private `checkGameFinished(room)`: queries the service;
when a `FinishState` is produced, re-guesses every letter of the current word
(broadcasting each resulting `GuessInfo` in word order), broadcasts the finish
event and the credited player, and returns true; otherwise returns false. -/
def GameController.checkGameFinished (room : Room) : Room × List Event × Bool :=
  match GameService.checkGameFinished room with
  | (room1, some fs) =>
    let out := room1.revealAll (room1.currentWord.map (fun l => l.letter))
    (out.1, out.2 ++ [Event.finishGame fs, Event.updatePlayer fs.player], true)
  | (room1, none) => (room1, [], false)

/-- The controller's `newGuess` endpoint (`POST rooms/:roomId/guesses`), with
the `IsPlayerInTurnGuard` check made explicit (modelled from the spec: the
guard rejects a caller who is not the current turn holder before the handler
runs): reject a duplicate letter with a bad request, otherwise apply the guess,
broadcast its result, and either run the finish sequence or advance the turn
once and broadcast the new holder. -/
def GameController.newGuess (room : Room) (callerId : String) (char : Char) :
    Except GameError (Room × List Event × GuessInfo) :=
  if !GameService.isPlayerInTurn room callerId then
    .error .notTurnHolder
  else if room.checkGuessIsPresent char then
    .error .duplicateGuess
  else
    let rg := room.addGuess char
    let fin := GameController.checkGameFinished rg.1
    if fin.2.2 then
      .ok (fin.1, Event.newGuess rg.2 :: fin.2.1, rg.2)
    else
      let nt := fin.1.updateNextTurn
      .ok (nt.1, Event.newGuess rg.2 :: fin.2.1 ++ [Event.newTurn nt.2], rg.2)

/-- The controller's `setWord` endpoint (`POST rooms/:roomId/word`), guarded by
`IsPlayerInTurnGuard` (the guard check is modelled from the spec): sets the
word on the room, broadcasts the word and then the next turn holder, and echoes
the word. -/
def GameController.setWord (room : Room) (callerId : String) (word : String) :
    Except GameError (Room × List Event × String) :=
  if !GameService.isPlayerInTurn room callerId then
    .error .notTurnHolder
  else
    match room.setWord word with
    | .error e => .error e
    | .ok room1 =>
      let nt := room1.updateNextTurn
      .ok (nt.1, [Event.wordSet room1.currentWord, Event.newTurn nt.2], word)

/-- The controller's `joinRoom` endpoint (`POST rooms/:roomId/players`): look
up the returning-player record, carry over its points only when its room id
matches, add the player and broadcast the join; then, when the record says the
user was master in the room's current round, reassign master (broadcasting the
change) and, if no word is set, hand the turn to the joiner and broadcast it. -/
def GameController.joinRoom (room : Room) (rpmap : RPMap) (userId : String)
    (name : String) : Room × List Event × Player :=
  let returningPlayer := getReturningPlayer rpmap userId
  let points :=
    match returningPlayer with
    | some r => if r.roomId == room.id then r.player.points else 0
    | none => 0
  let ap := GameService.addPlayer room userId name points
  let room1 := ap.1
  let player := ap.2
  let evs1 := [Event.playerJoined player]
  match returningPlayer with
  | some r =>
    if r.wasMaster && room1.round == r.round then
      let room2 := GameService.updateMaster room1 player.id
      let evs2 := evs1 ++ [Event.masterChanged player.id]
      if room2.currentWord.isEmpty then
        ({ room2 with currentTurn := userId }, evs2 ++ [Event.newTurn userId], player)
      else (room2, evs2, player)
    else (room1, evs1, player)
  | none => (room1, evs1, player)

/-- The controller's `removePlayer` endpoint
(`DELETE rooms/:roomId/players/:playerId`): remove the player with
`save = false`, broadcast the departure, and when the removed player still
holds the turn, advance the turn and broadcast the new holder; return the
removed player's info. -/
def GameController.removePlayer (room : Room) (rpmap : RPMap) (playerId : String) :
    Except GameError (Room × RPMap × List Event × Player) :=
  match GameService.removePlayer room rpmap playerId false with
  | .error e => .error e
  | .ok (room1, rpmap1, playerLeaving) =>
    let evs1 := [Event.playerLeft playerLeaving]
    if GameService.isPlayerInTurn room1 playerId then
      let nt := room1.updateNextTurn
      .ok (nt.1, rpmap1, evs1 ++ [Event.newTurn nt.2], playerLeaving.player)
    else
      .ok (room1, rpmap1, evs1, playerLeaving.player)

/-- The controller's `newWordGuess` endpoint (`POST rooms/:roomId/word-guesses`,
no guard): apply the whole-word guess, run the finish check (with its reveal
and finish broadcasts when the word is complete), and broadcast the submission
only when the game did not finish; echo the submitted word. -/
def GameController.newWordGuess (room : Room) (userId : String) (word : String) :
    Room × List Event × String :=
  let room1 := room.checkWordGuess userId word
  let fin := GameController.checkGameFinished room1
  if fin.2.2 then
    (fin.1, fin.2.1, word)
  else
    (fin.1, fin.2.1 ++ [Event.newWordGuess word], word)

/-!
## Helper lemmas

Shared facts about the embedded operations, used by several claim theorems.
-/

/-- Projects the letter out of a new-guess broadcast; none for any other event. -/
def eventLetter : Event → Option Char
  | .newGuess g => some g.letter
  | _ => none

theorem addGuess_currentTurn (room : Room) (c : Char) :
    ((room.addGuess c).1).currentTurn = room.currentTurn := rfl

theorem addGuess_info_letter (room : Room) (c : Char) :
    ((room.addGuess c).2).letter = c.toLower := rfl

theorem addGuess_letters (room : Room) (c : Char) :
    ((room.addGuess c).1).currentWord.map (fun l => l.letter) =
      room.currentWord.map (fun l => l.letter) := by
  simp only [Room.addGuess, List.map_map]
  apply List.map_congr_left
  intro a _
  by_cases h : (a.letter == c.toLower) = true <;> simp [Function.comp, h]

theorem checkGameFinished_service_of_some {room : Room} {fs : FinishState}
    (h : (GameService.checkGameFinished room).2 = some fs) :
    GameService.checkGameFinished room = ({ room with finished := true }, some fs) := by
  unfold GameService.checkGameFinished at h ⊢
  by_cases hc : (room.wordComplete && !room.finished) = true
  · simp only [hc, if_true] at h ⊢
    rw [h]
  · simp [hc] at h

theorem checkGameFinished_service_of_none {room : Room}
    (h : (GameService.checkGameFinished room).2 = none) :
    GameService.checkGameFinished room = (room, none) := by
  unfold GameService.checkGameFinished at h ⊢
  by_cases hc : (room.wordComplete && !room.finished) = true
  · simp [hc] at h
  · simp [hc]

theorem checkGameFinished_service_currentTurn (room : Room) :
    ((GameService.checkGameFinished room).1).currentTurn = room.currentTurn := by
  unfold GameService.checkGameFinished
  split <;> rfl

theorem revealAll_eventLetters (room : Room) (ls : List Char) :
    ((room.revealAll ls).2).map eventLetter = ls.map (fun c => some c.toLower) := by
  induction ls generalizing room with
  | nil => rfl
  | cons l rest ih =>
    simp only [Room.revealAll, List.map_cons, List.map]
    rw [show eventLetter (Event.newGuess (room.addGuess l).2) = some l.toLower from rfl]
    rw [ih]

theorem revealAll_mem_newGuess (room : Room) (ls : List Char) :
    ∀ e ∈ (room.revealAll ls).2, ∃ g, e = Event.newGuess g := by
  induction ls generalizing room with
  | nil =>
    intro e he
    simp [Room.revealAll] at he
  | cons l rest ih =>
    intro e he
    simp only [Room.revealAll, List.mem_cons] at he
    rcases he with rfl | he
    · exact ⟨_, rfl⟩
    · exact ih _ e he

theorem revealAll_currentTurn (room : Room) (ls : List Char) :
    ((room.revealAll ls).1).currentTurn = room.currentTurn := by
  induction ls generalizing room with
  | nil => rfl
  | cons l rest ih =>
    have h := ih (room.addGuess l).1
    simpa [Room.revealAll, addGuess_currentTurn] using h

theorem ctrl_checkGameFinished_currentTurn (room : Room) :
    ((GameController.checkGameFinished room).1).currentTurn = room.currentTurn := by
  rcases hs : GameService.checkGameFinished room with ⟨room1, ofs⟩
  have hct : room1.currentTurn = room.currentTurn := by
    have h := checkGameFinished_service_currentTurn room
    rw [hs] at h
    exact h
  cases ofs with
  | none => simp [GameController.checkGameFinished, hs, hct]
  | some fs => simp [GameController.checkGameFinished, hs, revealAll_currentTurn, hct]

theorem checkWordGuess_currentTurn (room : Room) (userId word : String) :
    (room.checkWordGuess userId word).currentTurn = room.currentTurn := by
  unfold Room.checkWordGuess
  split <;> rfl

theorem updateNextTurn_spec (room : Room) (q : Player) (hq : q ∈ room.players)
    (hqm : q.id ≠ room.masterId) :
    ∃ p, p ∈ room.players ∧ (room.updateNextTurn).2 = p.id ∧ p.id ≠ room.masterId ∧
      (room.updateNextTurn).1 = { room with currentTurn := p.id } := by
  unfold Room.updateNextTurn
  have hsome :
      ((room.players.rotate
        (match room.players.findIdx? (fun p => p.id == room.currentTurn) with
          | some i => i + 1
          | none => 0)).find? (fun p => p.id != room.masterId)).isSome = true := by
    rw [List.find?_isSome]
    refine ⟨q, ?_, ?_⟩
    · rw [List.mem_rotate]
      exact hq
    · simpa using hqm
  obtain ⟨p, hp⟩ := Option.isSome_iff_exists.mp hsome
  have hpmem : p ∈ room.players := List.mem_rotate.mp (List.mem_of_find?_eq_some hp)
  have hpne : p.id ≠ room.masterId := by
    have h := List.find?_some hp
    simpa using h
  simp only [hp]
  exact ⟨p, hpmem, rfl, hpne, rfl⟩

/-!
## Concrete fixtures

Small concrete rooms and histories used by the witness and counterexample
theorems.
-/

/-- A room mid-game: master m, guessers g and h, word "ab" with only the
letter a revealed, turn held by g. -/
def roomA : Room :=
  ⟨"r1", 0, [⟨"m", "M", 0⟩, ⟨"g", "G", 1⟩, ⟨"h", "H", 0⟩], "m", "g",
    [⟨'a', true⟩, ⟨'b', false⟩], ['a'], "g", false⟩

/-- A room awaiting a word whose turn is held by the guesser g, not by the
master m (reachable, e.g. after the master left while holding the turn). -/
def roomB : Room :=
  ⟨"r1", 1, [⟨"m", "M", 0⟩, ⟨"g", "G", 0⟩], "m", "g", [], [], "", false⟩

/-- A room with master m (holding the turn) and guesser g. -/
def roomC : Room :=
  ⟨"rA", 3, [⟨"m", "M", 0⟩, ⟨"g", "G", 5⟩], "m", "m", [], [], "", false⟩

/-- A room with master m and guessers g and h, turn held by g. -/
def roomD : Room :=
  ⟨"rA", 3, [⟨"m", "M", 0⟩, ⟨"g", "G", 5⟩, ⟨"h", "H", 0⟩], "m", "g", [], [], "", false⟩

/-- A room in round 2, awaiting a word, with the single player g as master. -/
def roomE : Room :=
  ⟨"r1", 2, [⟨"g", "G", 1⟩], "g", "g", [], [], "", false⟩

/-- A returning-player history: user u left room r2 during round 2 as master
with 7 points. -/
def rpmapE : RPMap := [("u", ⟨"r2", 2, true, ⟨"u", "U", 7⟩⟩)]

/-!
## Claim theorems
-/

/-- C2: a letter-guess request whose (normalized) letter is already in
`guessedLetters` is rejected with the duplicate-guess bad-request error; since
the embedding is pure and the request returns `Except.error` before any
transition is applied, no guess is recorded, no point is awarded and no turn
advance happens - the room state is left entirely unchanged. -/
theorem newGuess_duplicate_rejected_no_mutation (room : Room) (callerId : String)
    (char : Char) (hturn : room.currentTurn = callerId)
    (hdup : room.checkGuessIsPresent char = true) :
    GameController.newGuess room callerId char = .error .duplicateGuess := by
  unfold GameController.newGuess
  simp [GameService.isPlayerInTurn, hturn, hdup]

theorem newGuess_duplicate_rejected_no_mutation_witness :
    roomA.currentTurn = "g" ∧ roomA.checkGuessIsPresent 'a' = true ∧
      GameController.newGuess roomA "g" 'a' = .error .duplicateGuess :=
  ⟨rfl, by decide,
    newGuess_duplicate_rejected_no_mutation roomA "g" 'a' rfl (by decide)⟩

/-- C4: a successful (turn-held, non-duplicate) letter guess that does not
finish the game runs in this order: the guess transition `addGuess` is applied
to the room, its `GuessInfo` is broadcast, then the turn is advanced by exactly
one application of `updateNextTurn` and the new holder is broadcast - the
final state is `updateNextTurn` of the post-guess room and the trace is the
guess broadcast followed by the single new-turn broadcast. -/
theorem newGuess_success_order (room : Room) (callerId : String) (char : Char)
    (hturn : room.currentTurn = callerId)
    (hdup : room.checkGuessIsPresent char = false)
    (hnf : (GameService.checkGameFinished (room.addGuess char).1).2 = none) :
    GameController.newGuess room callerId char =
      .ok (((room.addGuess char).1.updateNextTurn).1,
        [Event.newGuess (room.addGuess char).2,
          Event.newTurn (((room.addGuess char).1.updateNextTurn)).2],
        (room.addGuess char).2) := by
  have hsvc := checkGameFinished_service_of_none hnf
  unfold GameController.newGuess GameController.checkGameFinished
  simp [GameService.isPlayerInTurn, hturn, hdup, hsvc]

theorem newGuess_success_order_witness :
    roomA.currentTurn = "g" ∧ roomA.checkGuessIsPresent 'z' = false ∧
      (GameService.checkGameFinished (roomA.addGuess 'z').1).2 = none ∧
      GameController.newGuess roomA "g" 'z' =
        .ok (((roomA.addGuess 'z').1.updateNextTurn).1,
          [Event.newGuess (roomA.addGuess 'z').2,
            Event.newTurn (((roomA.addGuess 'z').1.updateNextTurn)).2],
          (roomA.addGuess 'z').2) :=
  ⟨rfl, by decide, by decide,
    newGuess_success_order roomA "g" 'z' rfl (by decide) (by decide)⟩

/-- C1: a letter guess that completes the word triggers the finish sequence:
the real guess is broadcast, then one synthetic guess per letter of the word is
broadcast - the re-guessing loop covers every position, so in particular every
letter remaining before the finishing guess - in word order (witnessed by the
projected letters of the synthetic broadcasts equalling the word), then the
finish event and the credited player's update are broadcast, and no new-turn
broadcast occurs anywhere in the request. -/
theorem newGuess_finishing_reveals_and_suppresses_turn (room : Room)
    (callerId : String) (char : Char) (fs : FinishState)
    (hturn : room.currentTurn = callerId)
    (hdup : room.checkGuessIsPresent char = false)
    (hfin : (GameService.checkGameFinished (room.addGuess char).1).2 = some fs)
    (hnorm : ∀ l ∈ room.currentWord, l.letter.toLower = l.letter) :
    ∃ room2 synth,
      GameController.newGuess room callerId char =
        .ok (room2,
          Event.newGuess (room.addGuess char).2 ::
            (synth ++ [Event.finishGame fs, Event.updatePlayer fs.player]),
          (room.addGuess char).2)
      ∧ synth.map eventLetter = room.currentWord.map (fun l => some l.letter)
      ∧ ∀ p, Event.newTurn p ∉
          Event.newGuess (room.addGuess char).2 ::
            (synth ++ [Event.finishGame fs, Event.updatePlayer fs.player]) := by
  have hsvc := checkGameFinished_service_of_some hfin
  refine ⟨(({ (room.addGuess char).1 with finished := true } : Room).revealAll
      (({ (room.addGuess char).1 with finished := true } : Room).currentWord.map
        (fun l => l.letter))).1,
    (({ (room.addGuess char).1 with finished := true } : Room).revealAll
      (({ (room.addGuess char).1 with finished := true } : Room).currentWord.map
        (fun l => l.letter))).2, ?_, ?_, ?_⟩
  · unfold GameController.newGuess GameController.checkGameFinished
    simp [GameService.isPlayerInTurn, hturn, hdup, hsvc]
  · rw [revealAll_eventLetters]
    have hw : ({ (room.addGuess char).1 with finished := true } : Room).currentWord.map
        (fun l => l.letter) = room.currentWord.map (fun l => l.letter) :=
      addGuess_letters room char
    rw [hw, List.map_map]
    apply List.map_congr_left
    intro a ha
    simp [Function.comp, hnorm a ha]
  · intro p hp
    rcases List.mem_cons.mp hp with h | h
    · exact Event.noConfusion h
    rcases List.mem_append.mp h with h2 | h2
    · obtain ⟨g, hg⟩ := revealAll_mem_newGuess _ _ (Event.newTurn p) h2
      exact Event.noConfusion hg
    rcases List.mem_cons.mp h2 with h3 | h3
    · exact Event.noConfusion h3
    rcases List.mem_cons.mp h3 with h4 | h4
    · exact Event.noConfusion h4
    · simp at h4

theorem newGuess_finishing_witness :
    (GameService.checkGameFinished (roomA.addGuess 'b').1).2 =
        some ⟨⟨"g", "G", 2⟩⟩ ∧
      (∀ l ∈ roomA.currentWord, l.letter.toLower = l.letter) ∧
      ∃ room2 synth,
        GameController.newGuess roomA "g" 'b' =
          .ok (room2,
            Event.newGuess (roomA.addGuess 'b').2 ::
              (synth ++ [Event.finishGame ⟨⟨"g", "G", 2⟩⟩,
                Event.updatePlayer ⟨"g", "G", 2⟩]),
            (roomA.addGuess 'b').2)
        ∧ synth.map eventLetter = roomA.currentWord.map (fun l => some l.letter)
        ∧ ∀ p, Event.newTurn p ∉
            Event.newGuess (roomA.addGuess 'b').2 ::
              (synth ++ [Event.finishGame ⟨⟨"g", "G", 2⟩⟩,
                Event.updatePlayer ⟨"g", "G", 2⟩]) :=
  ⟨by decide, by decide,
    newGuess_finishing_reveals_and_suppresses_turn roomA "g" 'b' ⟨⟨"g", "G", 2⟩⟩
      rfl (by decide) (by decide) (by decide)⟩


/-- C3 counterexample: in `roomB` the guesser g (not the master m) holds the
turn while no word is set; g's set-word request passes the
`IsPlayerInTurnGuard` and the entity checks and succeeds, so the operation
does not require the caller to be the master. -/
theorem setWord_nonmaster_success_cex :
    (GameController.setWord roomB "g" "cat").isOk = true ∧
      roomB.masterId ≠ "g" ∧ GameService.isPlayerInTurn roomB "g" = true := by
  decide

/-- C3 amended: the set-word operation succeeds exactly when the caller is the
current turn holder (the route is guarded by `IsPlayerInTurnGuard`, not by a
master check), the room is awaiting a word (empty current word) and the word is
non-empty and alphabetic; any other caller or state is rejected by the pure
request before any mutation. -/
theorem setWord_success_iff (room : Room) (callerId : String) (word : String) :
    (GameController.setWord room callerId word).isOk = true ↔
      (room.currentTurn = callerId ∧ room.currentWord = [] ∧ word ≠ "" ∧
        ∀ c ∈ word.data, c.isAlpha = true) := by
  unfold GameController.setWord GameService.isPlayerInTurn Room.setWord
  cases h1 : (room.currentTurn == callerId) with
  | false =>
    have h1p : ¬ room.currentTurn = callerId := by simpa using h1
    simp [h1, h1p, Except.isOk, Except.toBool]
  | true =>
    have h1p : room.currentTurn = callerId := by simpa using h1
    cases hempty : room.currentWord.isEmpty with
    | false =>
      have hne : ¬ room.currentWord = [] := by
        intro hc
        rw [hc] at hempty
        simp at hempty
      simp [h1, h1p, hempty, hne, Except.isOk, Except.toBool]
    | true =>
      have heq : room.currentWord = [] := List.isEmpty_iff.mp hempty
      cases hw : (word.isEmpty || !word.data.all (fun c => c.isAlpha)) with
      | true =>
        have hno : ¬ (word ≠ "" ∧ ∀ c ∈ word.data, c.isAlpha = true) := by
          rcases Bool.or_eq_true_iff.mp hw with hx | hx
          · exact fun hc => hc.1 ((String.isEmpty_iff word).mp hx)
          · intro hc
            have hall := List.all_eq_true.mpr hc.2
            rw [hall] at hx
            exact absurd hx (by decide)
        simp only [h1, Bool.not_true, Bool.false_eq_true, if_false, hempty, hw,
          if_true, Except.isOk, Except.toBool, h1p, heq]
        simp [hno]
      | false =>
        have hx1 : word.isEmpty = false := (Bool.or_eq_false_iff.mp hw).1
        have hx2 : word.data.all (fun c => c.isAlpha) = true := by
          have := (Bool.or_eq_false_iff.mp hw).2
          simpa using this
        have hword : word ≠ "" := by
          intro hc
          rw [hc] at hx1
          exact absurd hx1 (by decide)
        simp only [h1, Bool.not_true, Bool.false_eq_true, if_false, hempty, hw,
          if_true, Except.isOk, Except.toBool, h1p, heq]
        simp [hword]
        exact List.all_eq_true.mp hx2

/-- C5 counterexample: removing the guesser g from `roomC` through the
remove-player endpoint, with an empty returning-player history, removes the
player and broadcasts the departure but leaves the history empty: the endpoint
calls the registry with `save = false`, so no `ReturningPlayerRecord` is saved
for g. -/
theorem removePlayer_no_record_cex :
    GameController.removePlayer roomC [] "g" =
      .ok (⟨"rA", 3, [⟨"m", "M", 0⟩], "m", "m", [], [], "", false⟩, [],
        [Event.playerLeft ⟨"rA", 3, false, ⟨"g", "G", 5⟩⟩], ⟨"g", "G", 5⟩) ∧
      getReturningPlayer [] "g" = none := by
  decide

/-- C5 amended: the remove-player endpoint passes `save = false` to the
registry, so every successful removal leaves the process-wide returning-player
history exactly as it was - no `ReturningPlayerRecord` snapshot is saved by
this endpoint - while the removed player's last known info is still returned
to the caller. -/
theorem removePlayer_preserves_history (room : Room) (rpmap : RPMap)
    (playerId : String) (out : Room × RPMap × List Event × Player)
    (h : GameController.removePlayer room rpmap playerId = .ok out) :
    out.2.1 = rpmap := by
  unfold GameController.removePlayer GameService.removePlayer at h
  rcases hf : room.players.find? (fun p => p.id == playerId) with _ | p
  · rw [hf] at h
    exact absurd h (by simp)
  · rw [hf] at h
    simp only [if_false, Bool.false_eq_true] at h
    split at h <;> (injection h with h2; rw [← h2])

theorem removePlayer_preserves_history_witness :
    GameController.removePlayer roomD [] "g" =
      .ok (⟨"rA", 3, [⟨"m", "M", 0⟩, ⟨"h", "H", 0⟩], "m", "h", [], [], "", false⟩,
        [], [Event.playerLeft ⟨"rA", 3, false, ⟨"g", "G", 5⟩⟩, Event.newTurn "h"],
        ⟨"g", "G", 5⟩) ∧
      ((⟨"rA", 3, [⟨"m", "M", 0⟩, ⟨"h", "H", 0⟩], "m", "h", [], [], "", false⟩,
        [], [Event.playerLeft ⟨"rA", 3, false, ⟨"g", "G", 5⟩⟩, Event.newTurn "h"],
        ⟨"g", "G", 5⟩) : Room × RPMap × List Event × Player).2.1 = [] :=
  ⟨by decide, removePlayer_preserves_history roomD [] "g" _ (by decide)⟩

/-- C6: the joining player's initial points are the points stored in their
returning-player record exactly when the record exists and its room id matches
the joined room; with no record, or a record saved for a different room, the
player starts with 0 points. -/
theorem joinRoom_points_carry_over (room : Room) (rpmap : RPMap)
    (userId name : String) :
    ((GameController.joinRoom room rpmap userId name).2.2).points =
      match getReturningPlayer rpmap userId with
      | some r => if r.roomId = room.id then r.player.points else 0
      | none => 0 := by
  rcases h : getReturningPlayer rpmap userId with _ | r
  · simp [GameController.joinRoom, GameService.addPlayer, GameService.updateMaster, h]
  · simp only [GameController.joinRoom, GameService.addPlayer,
      GameService.updateMaster, h]
    by_cases h2 : r.roomId = room.id
    · simp only [h2, beq_self_eq_true, if_true]
      split
      · split <;> rfl
      · rfl
    · have h2b : (r.roomId == room.id) = false := by simpa using h2
      simp only [h2b, Bool.false_eq_true, if_false, h2]
      split
      · split <;> rfl
      · rfl

/-- C7: a join request whose returning-player record has `wasMaster = true`
and whose round equals the joined room's current round makes the joiner the
room's master; additionally, when no word is currently set, the joiner
immediately becomes the turn holder. -/
theorem joinRoom_returning_master_reassigned (room : Room) (rpmap : RPMap)
    (userId name : String) (r : ReturningPlayerRecord)
    (hr : getReturningPlayer rpmap userId = some r)
    (hm : r.wasMaster = true)
    (hround : room.round = r.round) :
    ((GameController.joinRoom room rpmap userId name).1).masterId = userId ∧
      (room.currentWord = [] →
        ((GameController.joinRoom room rpmap userId name).1).currentTurn = userId) := by
  have hcond : (r.wasMaster &&
      ({ room with players := room.players ++ [(⟨userId, name,
        if r.roomId == room.id then r.player.points else 0⟩ : Player)] } : Room).round
        == r.round) = true := by
    simp only [hm, Bool.true_and]
    simpa using hround
  simp only [GameController.joinRoom, GameService.addPlayer,
    GameService.updateMaster, hr, hcond, if_true]
  constructor
  · split <;> rfl
  · intro hw
    simp [hw]

theorem joinRoom_returning_master_witness :
    getReturningPlayer rpmapE "u" = some ⟨"r2", 2, true, ⟨"u", "U", 7⟩⟩ ∧
      roomE.round = 2 ∧ roomE.currentWord = [] ∧
      ((GameController.joinRoom roomE rpmapE "u" "U").1).masterId = "u" ∧
      ((GameController.joinRoom roomE rpmapE "u" "U").1).currentTurn = "u" :=
  ⟨by decide, rfl, rfl,
    (joinRoom_returning_master_reassigned roomE rpmapE "u" "U"
      ⟨"r2", 2, true, ⟨"u", "U", 7⟩⟩ (by decide) rfl rfl).1,
    (joinRoom_returning_master_reassigned roomE rpmapE "u" "U"
      ⟨"r2", 2, true, ⟨"u", "U", 7⟩⟩ (by decide) rfl rfl).2 rfl⟩

/-- C9: the master-reassignment condition on join compares only `wasMaster`
and the round, never the record's room id: a joiner whose record was saved for
a DIFFERENT room still becomes master of the joined room when the rounds
match, while the point carry-over (the only room-id comparison) gives them 0
points. -/
theorem joinRoom_master_ignores_roomId (room : Room) (rpmap : RPMap)
    (userId name : String) (r : ReturningPlayerRecord)
    (hr : getReturningPlayer rpmap userId = some r)
    (hm : r.wasMaster = true)
    (hround : room.round = r.round)
    (hdiff : r.roomId ≠ room.id) :
    ((GameController.joinRoom room rpmap userId name).1).masterId = userId ∧
      ((GameController.joinRoom room rpmap userId name).2.2).points = 0 := by
  have hmaster := (joinRoom_returning_master_reassigned room rpmap userId name r
    hr hm hround).1
  refine ⟨hmaster, ?_⟩
  rw [joinRoom_points_carry_over, hr]
  simp [hdiff]

theorem joinRoom_master_ignores_roomId_witness :
    (⟨"r2", 2, true, ⟨"u", "U", 7⟩⟩ : ReturningPlayerRecord).roomId ≠ roomE.id ∧
      ((GameController.joinRoom roomE rpmapE "u" "U").1).masterId = "u" ∧
      ((GameController.joinRoom roomE rpmapE "u" "U").2.2).points = 0 :=
  ⟨by decide,
    (joinRoom_master_ignores_roomId roomE rpmapE "u" "U"
      ⟨"r2", 2, true, ⟨"u", "U", 7⟩⟩ (by decide) rfl rfl (by decide)).1,
    (joinRoom_master_ignores_roomId roomE rpmapE "u" "U"
      ⟨"r2", 2, true, ⟨"u", "U", 7⟩⟩ (by decide) rfl rfl (by decide)).2⟩

/-- C8: removing a player who holds the current turn reassigns the turn within
the same request: the removal succeeds, the player-left broadcast comes first
and the new-turn broadcast second, and the new holder is a non-master player
still in the room (the next eligible guesser found by `updateNextTurn`),
provided an eligible guesser remains. -/
theorem removePlayer_turn_reassigned (room : Room) (rpmap : RPMap)
    (playerId : String) (q : Player)
    (hmem : ∃ p ∈ room.players, p.id = playerId)
    (hturn : room.currentTurn = playerId)
    (hq : q ∈ room.players) (hqid : q.id ≠ playerId) (hqm : q.id ≠ room.masterId) :
    ∃ rec next room2,
      GameController.removePlayer room rpmap playerId =
        .ok (room2, rpmap, [Event.playerLeft rec, Event.newTurn next], rec.player)
      ∧ room2.currentTurn = next
      ∧ next ≠ room.masterId
      ∧ ∃ p ∈ room2.players, p.id = next := by
  obtain ⟨p0, hp0mem, hp0id⟩ := hmem
  have hfind : (room.players.find? (fun p => p.id == playerId)).isSome = true := by
    rw [List.find?_isSome]
    exact ⟨p0, hp0mem, by simp [hp0id]⟩
  obtain ⟨pw, hpw⟩ := Option.isSome_iff_exists.mp hfind
  obtain ⟨pn, hpnmem, hpnid, hpnne, hpnroom⟩ :=
    updateNextTurn_spec
      { room with players := room.players.filter (fun x => x.id != playerId) } q
      (List.mem_filter.mpr ⟨hq, by simp [hqid]⟩) hqm
  refine ⟨⟨room.id, room.round, room.masterId == playerId, pw⟩, pn.id,
    (({ room with players := room.players.filter (fun x => x.id != playerId) } :
      Room).updateNextTurn).1, ?_, ?_, ?_, ?_⟩
  · unfold GameController.removePlayer GameService.removePlayer
    rw [hpw]
    have ht : GameService.isPlayerInTurn
        { room with players := room.players.filter (fun x => x.id != playerId) }
        playerId = true := by
      simp [GameService.isPlayerInTurn, hturn]
    simp [ht, hpnid]
  · rw [hpnroom]
  · exact hpnne
  · refine ⟨pn, ?_, rfl⟩
    rw [hpnroom]
    exact hpnmem

theorem removePlayer_turn_reassigned_witness :
    roomD.currentTurn = "g" ∧
      ∃ rec next room2,
        GameController.removePlayer roomD [] "g" =
          .ok (room2, [], [Event.playerLeft rec, Event.newTurn next], rec.player)
        ∧ room2.currentTurn = next
        ∧ next ≠ roomD.masterId
        ∧ ∃ p ∈ room2.players, p.id = next :=
  ⟨rfl,
    removePlayer_turn_reassigned roomD [] "g" ⟨"h", "H", 0⟩ (by decide) rfl
      (by decide) (by decide) (by decide)⟩

/-- C10: a whole-word guess never advances the turn: whatever the submitted
word and caller, the room's `currentTurn` after the request equals the one
before (the word-guess path never invokes `updateNextTurn` and broadcasts no
new-turn event), and the new-word-guess broadcast is emitted exactly when the
finish query produced no `FinishState` (the guess did not complete the
word). -/
theorem newWordGuess_frame (room : Room) (userId word : String) :
    ((GameController.newWordGuess room userId word).1).currentTurn =
        room.currentTurn
      ∧ (∀ p, Event.newTurn p ∉ (GameController.newWordGuess room userId word).2.1)
      ∧ ((Event.newWordGuess word ∈
            (GameController.newWordGuess room userId word).2.1) ↔
          (GameService.checkGameFinished (room.checkWordGuess userId word)).2 =
            none) := by
  have h1 : (GameController.newWordGuess room userId word).1 =
      (GameController.checkGameFinished (room.checkWordGuess userId word)).1 := by
    unfold GameController.newWordGuess
    dsimp only
    split <;> rfl
  refine ⟨?_, ?_, ?_⟩
  · rw [h1, ctrl_checkGameFinished_currentTurn, checkWordGuess_currentTurn]
  · intro p
    unfold GameController.newWordGuess
    rcases hs : (GameService.checkGameFinished (room.checkWordGuess userId word)).2
      with _ | fs
    · have hctrl : GameController.checkGameFinished (room.checkWordGuess userId word) =
          (room.checkWordGuess userId word, [], false) := by
        unfold GameController.checkGameFinished
        rw [checkGameFinished_service_of_none hs]
      simp [hctrl]
    · have hctrl : GameController.checkGameFinished (room.checkWordGuess userId word) =
          ((({ room.checkWordGuess userId word with finished := true } : Room).revealAll
              (({ room.checkWordGuess userId word with finished := true } :
                Room).currentWord.map (fun l => l.letter))).1,
            (({ room.checkWordGuess userId word with finished := true } : Room).revealAll
              (({ room.checkWordGuess userId word with finished := true } :
                Room).currentWord.map (fun l => l.letter))).2 ++
              [Event.finishGame fs, Event.updatePlayer fs.player], true) := by
        unfold GameController.checkGameFinished
        rw [checkGameFinished_service_of_some hs]
      simp only [hctrl, if_true]
      intro hp
      rcases List.mem_append.mp hp with h2 | h2
      · obtain ⟨g, hg⟩ := revealAll_mem_newGuess _ _ (Event.newTurn p) h2
        exact Event.noConfusion hg
      · rcases List.mem_cons.mp h2 with h3 | h3
        · exact Event.noConfusion h3
        · rcases List.mem_cons.mp h3 with h4 | h4
          · exact Event.noConfusion h4
          · simp at h4
  · unfold GameController.newWordGuess
    rcases hs : (GameService.checkGameFinished (room.checkWordGuess userId word)).2
      with _ | fs
    · have hctrl : GameController.checkGameFinished (room.checkWordGuess userId word) =
          (room.checkWordGuess userId word, [], false) := by
        unfold GameController.checkGameFinished
        rw [checkGameFinished_service_of_none hs]
      simp [hctrl]
    · have hctrl : GameController.checkGameFinished (room.checkWordGuess userId word) =
          ((({ room.checkWordGuess userId word with finished := true } : Room).revealAll
              (({ room.checkWordGuess userId word with finished := true } :
                Room).currentWord.map (fun l => l.letter))).1,
            (({ room.checkWordGuess userId word with finished := true } : Room).revealAll
              (({ room.checkWordGuess userId word with finished := true } :
                Room).currentWord.map (fun l => l.letter))).2 ++
              [Event.finishGame fs, Event.updatePlayer fs.player], true) := by
        unfold GameController.checkGameFinished
        rw [checkGameFinished_service_of_some hs]
      simp only [hctrl, if_true]
      constructor
      · intro hp
        rcases List.mem_append.mp hp with h2 | h2
        · obtain ⟨g, hg⟩ := revealAll_mem_newGuess _ _ (Event.newWordGuess word) h2
          exact Event.noConfusion hg
        · rcases List.mem_cons.mp h2 with h3 | h3
          · exact Event.noConfusion h3
          · rcases List.mem_cons.mp h3 with h4 | h4
            · exact Event.noConfusion h4
            · simp at h4
      · intro hc
        exact Option.noConfusion hc
